import Mathlib

/-!
# bloodyAD access-control mutation engine: verification of the specification

This file embeds the access-control mutation engine of the bloodyAD
repository (the `modules.py` call-site layer, and the underlying
security-descriptor engine described by the design specification) in
Lean 4 and proves or refutes the frozen claims about it.

Bytes are modelled as `List Nat`, where every decoded byte is checked to
be `< 256`; numeric fields are fixed-width little-endian, as the
specification requires.
-/

namespace BloodyAD

/-! ## Byte-level primitives -/

/-- Read one byte from the stream; fails on an empty stream or on a
value that is not a byte. -/
def readByte : List Nat → Option (Nat × List Nat)
  | [] => none
  | b :: rest => if b < 256 then some (b, rest) else none

/-- Read an `n`-byte little-endian fixed-width number. -/
def readLE : Nat → List Nat → Option (Nat × List Nat)
  | 0, bs => some (0, bs)
  | n + 1, bs =>
    match readByte bs with
    | none => none
    | some (b, bs1) =>
      match readLE n bs1 with
      | none => none
      | some (v, bs2) => some (b + 256 * v, bs2)

/-- Emit an `n`-byte little-endian fixed-width number. -/
def encodeLE : Nat → Nat → List Nat
  | 0, _ => []
  | n + 1, v => v % 256 :: encodeLE n (v / 256)

/-! ## Security identifiers

Modelled from the spec: a SID is a variable-length structured identifier
(revision, authority, sub-authorities); comparison is by exact binary
equality. Encoded as: revision byte, sub-authority count byte, 6-byte
authority, then 4-byte little-endian sub-authorities. -/

structure SID where
  revision : Nat
  authority : Nat
  subAuthorities : List Nat
  deriving DecidableEq, Repr

/-- Emit the binary form of a SID. -/
def encodeSID (s : SID) : List Nat :=
  s.revision % 256 :: s.subAuthorities.length % 256 ::
    (encodeLE 6 s.authority ++ (s.subAuthorities.map (encodeLE 4)).flatten)

/-- Read `n` 4-byte little-endian sub-authorities. -/
def readSubAuths : Nat → List Nat → Option (List Nat × List Nat)
  | 0, bs => some ([], bs)
  | n + 1, bs =>
    match readLE 4 bs with
    | none => none
    | some (v, bs1) =>
      match readSubAuths n bs1 with
      | none => none
      | some (l, bs2) => some (v :: l, bs2)

/-- Decode a SID from the head of the stream. -/
def decodeSID (bs : List Nat) : Option (SID × List Nat) :=
  match readByte bs with
  | none => none
  | some (rev, bs1) =>
    match readByte bs1 with
    | none => none
    | some (cnt, bs2) =>
      match readLE 6 bs2 with
      | none => none
      | some (auth, bs3) =>
        match readSubAuths cnt bs3 with
        | none => none
        | some (subs, bs4) => some (⟨rev, auth, subs⟩, bs4)

/-! ## Access-control entries

Modelled from the spec: an ACE has a type (allow / deny /
object-specific-allow), a flags byte (whose bit `0x10` marks an
inherited entry), a 32-bit rights mask, an optional object-type GUID
(present exactly for the object-specific-allow type) and a trustee SID. -/

inductive AceType
  | allow
  | deny
  | allowObject (objectTypeGuid : Nat)
  deriving DecidableEq, Repr

structure ACE where
  aceType : AceType
  aceFlags : Nat
  mask : Nat
  trustee : SID
  deriving DecidableEq, Repr

/-- An ACE is inherited when bit `0x10` of its flags byte is set. -/
def ACE.isInherited (a : ACE) : Bool := a.aceFlags.testBit 4

def aceTypeByte : AceType → Nat
  | .allow => 0
  | .deny => 1
  | .allowObject _ => 2

/-- Emit the binary form of an ACE: type byte, flags byte, 4-byte mask,
16-byte object-type GUID for the object-specific type, trustee SID. -/
def encodeACE (a : ACE) : List Nat :=
  aceTypeByte a.aceType :: a.aceFlags % 256 ::
    (encodeLE 4 a.mask ++
      (match a.aceType with
       | .allowObject g => encodeLE 16 g
       | _ => []) ++ encodeSID a.trustee)

/-- Decode an ACE from the head of the stream; an unknown type byte is a
structural violation. -/
def decodeACE (bs : List Nat) : Option (ACE × List Nat) :=
  match readByte bs with
  | none => none
  | some (t, bs1) =>
    match readByte bs1 with
    | none => none
    | some (flags, bs2) =>
      match readLE 4 bs2 with
      | none => none
      | some (mask, bs3) =>
        if t = 0 then
          match decodeSID bs3 with
          | none => none
          | some (sid, bs4) => some (⟨.allow, flags, mask, sid⟩, bs4)
        else if t = 1 then
          match decodeSID bs3 with
          | none => none
          | some (sid, bs4) => some (⟨.deny, flags, mask, sid⟩, bs4)
        else if t = 2 then
          match readLE 16 bs3 with
          | none => none
          | some (g, bs4) =>
            match decodeSID bs4 with
            | none => none
            | some (sid, bs5) => some (⟨.allowObject g, flags, mask, sid⟩, bs5)
        else none

/-! ## Access-control lists -/

/-- Read `n` consecutive ACEs. -/
def decodeACEs : Nat → List Nat → Option (List ACE × List Nat)
  | 0, bs => some ([], bs)
  | n + 1, bs =>
    match decodeACE bs with
    | none => none
    | some (a, bs1) =>
      match decodeACEs n bs1 with
      | none => none
      | some (l, bs2) => some (a :: l, bs2)

/-- Decode an ACL: a 2-byte little-endian entry count, then the entries. -/
def decodeACL (bs : List Nat) : Option (List ACE × List Nat) :=
  match readLE 2 bs with
  | none => none
  | some (cnt, bs1) => decodeACEs cnt bs1

/-- Emit an ACL: 2-byte little-endian entry count, then the entries. -/
def encodeACL (l : List ACE) : List Nat :=
  encodeLE 2 l.length ++ (l.map encodeACE).flatten

/-! ## Security descriptors

Modelled from the spec: revision, 16-bit control flags, owner SID, group
SID, DACL, optional SACL. Bit `0x10` of the control flags signals that a
SACL section is present; decoding fails (`MalformedDescriptor`, here
`none`) when the buffer runs short, a type byte is unknown, or trailing
bytes remain. -/

structure SecurityDescriptor where
  revision : Nat
  control : Nat
  owner : SID
  group : SID
  dacl : List ACE
  sacl : Option (List ACE)
  deriving DecidableEq, Repr

/-- Serialize a security descriptor back to bytes. -/
def encodeSD (d : SecurityDescriptor) : List Nat :=
  d.revision % 256 ::
    (encodeLE 2 d.control ++ encodeSID d.owner ++ encodeSID d.group ++
      encodeACL d.dacl ++
      (match d.sacl with
       | some l => encodeACL l
       | none => []))

/-- Parse a binary security-descriptor blob, consuming the whole buffer. -/
def decodeSD (bs : List Nat) : Option SecurityDescriptor :=
  match readByte bs with
  | none => none
  | some (rev, bs1) =>
    match readLE 2 bs1 with
    | none => none
    | some (control, bs2) =>
      match decodeSID bs2 with
      | none => none
      | some (owner, bs3) =>
        match decodeSID bs3 with
        | none => none
        | some (group, bs4) =>
          match decodeACL bs4 with
          | none => none
          | some (dacl, bs5) =>
            if control.testBit 4 then
              match decodeACL bs5 with
              | none => none
              | some (sacl, bs6) =>
                if bs6 = [] then some ⟨rev, control, owner, group, dacl, some sacl⟩
                else none
            else
              if bs5 = [] then some ⟨rev, control, owner, group, dacl, none⟩
              else none

/-! ## ACE editor

Modelled from the spec: `grant` and `revoke` edit the DACL of a decoded
descriptor for an exact (trustee, right, object-type GUID) match key. -/

/-- The allow ACE type the editor uses for a given optional object-type
GUID: plain allow without a GUID, object-specific allow with one. -/
def allowTypeFor : Option Nat → AceType
  | none => .allow
  | some g => .allowObject g

/-- An ACE matches the edit key when its type, rights mask, object-type
GUID and trustee SID all match exactly. -/
def aceMatches (s : SID) (m : Nat) (g : Option Nat) (a : ACE) : Bool :=
  decide (a.aceType = allowTypeFor g ∧ a.mask = m ∧ a.trustee = s)

/-- The new explicit (non-inherited) allow ACE inserted by `grant`. -/
def newAllowAce (s : SID) (m : Nat) (g : Option Nat) : ACE :=
  ⟨allowTypeFor g, 0, m, s⟩

/-- Modelled from the spec: `grant` returns the descriptor unchanged
when an exactly matching ACE already exists; otherwise it inserts the
new allow ACE after the existing explicit entries and before any
inherited entries. -/
def grant (d : SecurityDescriptor) (s : SID) (m : Nat) (g : Option Nat) :
    SecurityDescriptor :=
  if d.dacl.any (aceMatches s m g) then d
  else
    { d with dacl :=
        d.dacl.takeWhile (fun a => !a.isInherited) ++
          newAllowAce s m g :: d.dacl.dropWhile (fun a => !a.isInherited) }

/-- Remove the first list entry satisfying the match key, if any. -/
def removeFirstMatch (p : ACE → Bool) : List ACE → List ACE
  | [] => []
  | a :: l => if p a then l else a :: removeFirstMatch p l

/-- Outcome signal of `revoke`: `noMatchingGrant` is non-fatal. -/
inductive RevokeSignal
  | removed
  | noMatchingGrant
  deriving DecidableEq, Repr

/-- Modelled from the spec: `revoke` removes only an ACE that exactly
matches the tuple; with no match it returns the descriptor unchanged
and signals `NoMatchingGrant`. -/
def revoke (d : SecurityDescriptor) (s : SID) (m : Nat) (g : Option Nat) :
    SecurityDescriptor × RevokeSignal :=
  if d.dacl.any (aceMatches s m g) then
    ({ d with dacl := removeFirstMatch (aceMatches s m g) d.dacl }, .removed)
  else (d, .noMatchingGrant)

/-! ## Owner editor -/

/-- Modelled from the spec: `setOwner` replaces the owner field and
returns the owner that was present immediately before the call. -/
def setOwnerSD (d : SecurityDescriptor) (s : SID) : SecurityDescriptor × SID :=
  ({ d with owner := s }, d.owner)

/-! ## Shadow-credential entries -/

/-- Modelled from the spec: a KeyCredential entry of the credential-link
attribute, uniquely identified by its embedded GUID. -/
structure KeyCredential where
  deviceId : Nat
  material : List Nat
  deriving DecidableEq, Repr

/-- Modelled from the spec: `unenroll` removes the single entry whose
GUID matches the credential GUID generated at enrollment. -/
def unenroll : List KeyCredential → Nat → List KeyCredential
  | [], _ => []
  | e :: l, g => if e.deviceId = g then l else e :: unenroll l g

/-! ## Delegation orchestrator and the `modules.py` call-site layer -/

/-- An edit request dispatched by the orchestrator: a DACL edit keyed by
the caller's `enable` string, or an owner replacement. -/
inductive EditKind
  | daclEdit (trustee : SID) (mask : Nat) (objectTypeGuid : Option Nat) (enable : String)
  | ownerEdit (newOwner : SID)

/-- Modelled from the spec: the Edit step dispatches to the ACE editor
(grant when the enable string equals `"True"`, revoke otherwise) or to
the owner editor, which also reports the previous owner. -/
def applyEdit : EditKind → SecurityDescriptor → SecurityDescriptor × Option SID
  | .daclEdit s m g enable, d =>
    (if enable = "True" then grant d s m g else (revoke d s m g).1, none)
  | .ownerEdit s, d => ((setOwnerSD d s).1, some (setOwnerSD d s).2)

/-- Modelled from the spec: the Fetch → Decode → Edit → Encode → Write
pipeline of `modifySecDesc`. The directory is a map from attribute name
to bytes; the result is the edited descriptor, the updated directory
and, for an owner edit, the previous owner. A decode failure
(`MalformedDescriptor`) aborts the operation. -/
def modifySecDesc (attrs : String → List Nat) (attr : String) (k : EditKind) :
    Option (SecurityDescriptor × (String → List Nat) × Option SID) :=
  match decodeSD (attrs attr) with
  | none => none
  | some d =>
    let r := applyEdit k d
    some (r.1, fun a => if a = attr then encodeSD r.1 else attrs a, r.2)

/-- The GENERIC_ALL rights mask. -/
def GENERIC_ALL : Nat := 0x10000000

/-- The control-access rights mask used for extended-right grants. -/
def CONTROL_ACCESS : Nat := 0x100

/-- The DS-Replication-Get-Changes extended-right GUID as a 128-bit
number. -/
def DCSYNC_GUID : Nat := 0x1131f6aa9c0711d1f79f00c04fc2dcd2

/-- Embeds `modules.setGenericAll`: a DACL edit of the target's
`nTSecurityDescriptor`, keyed by the caller's `enable` string. -/
def setGenericAll (attrs : String → List Nat) (trustee : SID) (enable : String) :
    Option (SecurityDescriptor × (String → List Nat) × Option SID) :=
  modifySecDesc attrs "nTSecurityDescriptor" (.daclEdit trustee GENERIC_ALL none enable)

/-- Embeds `modules.setOwner`: an owner edit of the target's
`nTSecurityDescriptor`, returning the previous owner. -/
def setOwner (attrs : String → List Nat) (newOwner : SID) :
    Option (SecurityDescriptor × (String → List Nat) × Option SID) :=
  modifySecDesc attrs "nTSecurityDescriptor" (.ownerEdit newOwner)

/-- The delegation attribute edited by `modules.setRbcd`. -/
def rbcdAttribute : String := "msDS-AllowedToActOnBehalfOfOtherIdentity"

/-- Embeds `modules.setRbcd`: the same DACL edit, applied to the
delegation attribute instead of `nTSecurityDescriptor`. -/
def setRbcd (attrs : String → List Nat) (spn : SID) (enable : String) :
    Option (SecurityDescriptor × (String → List Nat) × Option SID) :=
  modifySecDesc attrs rbcdAttribute (.daclEdit spn GENERIC_ALL none enable)

/-- Embeds `modules.setDCSync`: an extended-right DACL edit of the
domain object's `nTSecurityDescriptor` carrying the replication GUID. -/
def setDCSync (attrs : String → List Nat) (trustee : SID) (enable : String) :
    Option (SecurityDescriptor × (String → List Nat) × Option SID) :=
  modifySecDesc attrs "nTSecurityDescriptor"
    (.daclEdit trustee CONTROL_ACCESS (some DCSYNC_GUID) enable)

/-- The two branches of `modules.setShadowCredentials`. -/
inductive ShadowCredAction
  | addShadowCredentials
  | delShadowCredentials
  deriving DecidableEq, Repr

/-- Embeds the dispatch of `modules.setShadowCredentials`: the `enable`
string is compared to `"True"` by exact equality. -/
def setShadowCredentials (enable : String) : ShadowCredAction :=
  if enable = "True" then .addShadowCredentials else .delShadowCredentials

/-- Embeds `modules.setUserAccountControl`: the fetched value is or-ed
with the flags when `enable = "True"` and and-ed with their complement
otherwise (Python `uac | flags` / `uac & ~flags` on unbounded signed
integers); after the modify, a zero directory result code returns
normally and any other code raises `ResultError` carrying the result. -/
def setUserAccountControl (uac flags : Int) (enable : String) (dirResult : Nat) :
    Int × Except Nat Unit :=
  (if enable = "True" then Int.lor uac flags else Int.land uac (Int.lnot flags),
   if dirResult = 0 then Except.ok () else Except.error dirResult)

/-! ## Canonical DACL order -/

/-- Rank of an ACE in canonical DACL order: explicit deny entries first,
then explicit allow entries, then inherited entries. -/
def aceRank (a : ACE) : Nat :=
  if a.isInherited then 2 else if a.aceType = .deny then 0 else 1

/-- A DACL is canonically ordered when ACE ranks are non-decreasing. -/
def canonicalOrder (l : List ACE) : Prop :=
  l.Pairwise (fun a b => aceRank a ≤ aceRank b)

def ACE.isExplicitDeny (a : ACE) : Bool :=
  !a.isInherited && decide (a.aceType = .deny)

def ACE.isExplicitAllow (a : ACE) : Bool :=
  !a.isInherited && !decide (a.aceType = .deny)

/-- No explicit-allow entry precedes an explicit-deny entry. -/
def denyPrecedesAllow (l : List ACE) : Prop :=
  l.Pairwise (fun a b => ¬(a.isExplicitAllow = true ∧ b.isExplicitDeny = true))

/-! ## Sample data used by the concrete evaluations -/

def sampleSID : SID := ⟨1, 5, [21]⟩

def sampleOtherSID : SID := ⟨1, 5, [99]⟩

def sampleOwner : SID := ⟨1, 5, []⟩

def sampleACE : ACE := ⟨.allow, 0, 0x10000000, sampleSID⟩

def sampleSD : SecurityDescriptor := ⟨1, 0, sampleOwner, sampleOwner, [sampleACE], none⟩

def sampleBytes : List Nat :=
  [1, 0, 0,
   1, 0, 5, 0, 0, 0, 0, 0,
   1, 0, 5, 0, 0, 0, 0, 0,
   1, 0,
   0, 0, 0, 0, 0, 16,
   1, 1, 5, 0, 0, 0, 0, 0, 21, 0, 0, 0]

def sampleAttrs : String → List Nat := fun _ => sampleBytes

/-! ## Codec round-trip lemmas -/

theorem readByte_spec {bs : List Nat} {b : Nat} {rest : List Nat}
    (h : readByte bs = some (b, rest)) : bs = b :: rest ∧ b < 256 := by
  cases bs with
  | nil => simp [readByte] at h
  | cons x xs =>
    simp only [readByte] at h
    by_cases hx : x < 256
    · simp [hx] at h
      exact ⟨by rw [h.1, h.2], h.1 ▸ hx⟩
    · simp [hx] at h

theorem readLE_spec {n : Nat} {bs : List Nat} {v : Nat} {rest : List Nat}
    (h : readLE n bs = some (v, rest)) :
    encodeLE n v ++ rest = bs ∧ v < 256 ^ n := by
  induction n generalizing bs v rest with
  | zero =>
    simp only [readLE, Option.some.injEq, Prod.mk.injEq] at h
    obtain ⟨hv, hr⟩ := h
    subst hv; subst hr
    simp [encodeLE]
  | succ k ih =>
    simp only [readLE] at h
    split at h
    · exact absurd h (by simp)
    · rename_i b bs1 h1
      split at h
      · exact absurd h (by simp)
      · rename_i w bs2 h2
        simp only [Option.some.injEq, Prod.mk.injEq] at h
        obtain ⟨hv, hrest⟩ := h
        obtain ⟨hbs, hb⟩ := readByte_spec h1
        obtain ⟨henc, hw⟩ := ih h2
        subst hv; subst hrest; subst hbs
        constructor
        · simp only [encodeLE]
          have hmod : (b + 256 * w) % 256 = b := by omega
          have hdiv : (b + 256 * w) / 256 = w := by omega
          rw [hmod, hdiv, List.cons_append, henc]
        · have : 256 ^ (k + 1) = 256 * 256 ^ k := by ring
          omega

theorem readSubAuths_spec {n : Nat} {bs : List Nat} {l : List Nat} {rest : List Nat}
    (h : readSubAuths n bs = some (l, rest)) :
    (l.map (encodeLE 4)).flatten ++ rest = bs ∧ l.length = n := by
  induction n generalizing bs l rest with
  | zero =>
    simp only [readSubAuths, Option.some.injEq, Prod.mk.injEq] at h
    obtain ⟨hl, hr⟩ := h
    subst hl; subst hr
    simp
  | succ k ih =>
    simp only [readSubAuths] at h
    split at h
    · exact absurd h (by simp)
    · rename_i v bs1 h1
      split at h
      · exact absurd h (by simp)
      · rename_i l1 bs2 h2
        simp only [Option.some.injEq, Prod.mk.injEq] at h
        obtain ⟨hl, hrest⟩ := h
        obtain ⟨henc1, _⟩ := readLE_spec h1
        obtain ⟨henc2, hlen⟩ := ih h2
        subst hl; subst hrest
        refine ⟨?_, by simp [hlen]⟩
        simp only [List.map_cons, List.flatten_cons, List.append_assoc, henc2, henc1]

theorem decodeSID_spec {bs : List Nat} {s : SID} {rest : List Nat}
    (h : decodeSID bs = some (s, rest)) : encodeSID s ++ rest = bs := by
  simp only [decodeSID] at h
  split at h
  · exact absurd h (by simp)
  · rename_i rev bs1 h1
    split at h
    · exact absurd h (by simp)
    · rename_i cnt bs2 h2
      split at h
      · exact absurd h (by simp)
      · rename_i auth bs3 h3
        split at h
        · exact absurd h (by simp)
        · rename_i subs bs4 h4
          simp only [Option.some.injEq, Prod.mk.injEq] at h
          obtain ⟨hs, hrest⟩ := h
          obtain ⟨hbs, hb1⟩ := readByte_spec h1
          obtain ⟨hbs1, hb2⟩ := readByte_spec h2
          obtain ⟨henc6, _⟩ := readLE_spec h3
          obtain ⟨hencsub, hlen⟩ := readSubAuths_spec h4
          subst hs; subst hrest; subst hbs; subst hbs1
          simp only [encodeSID, hlen, Nat.mod_eq_of_lt hb1, Nat.mod_eq_of_lt hb2]
          simp [← henc6, ← hencsub]

theorem decodeACE_spec {bs : List Nat} {a : ACE} {rest : List Nat}
    (h : decodeACE bs = some (a, rest)) : encodeACE a ++ rest = bs := by
  simp only [decodeACE] at h
  split at h
  · exact absurd h (by simp)
  · rename_i t bs1 h1
    split at h
    · exact absurd h (by simp)
    · rename_i flags bs2 h2
      split at h
      · exact absurd h (by simp)
      · rename_i mask bs3 h3
        obtain ⟨hbs, ht⟩ := readByte_spec h1
        obtain ⟨hbs1, hfl⟩ := readByte_spec h2
        obtain ⟨henc4, _⟩ := readLE_spec h3
        subst hbs; subst hbs1
        split at h
        · rename_i ht0
          subst ht0
          split at h
          · exact absurd h (by simp)
          · rename_i sid bs4 h4
            simp only [Option.some.injEq, Prod.mk.injEq] at h
            obtain ⟨ha, hrest⟩ := h
            subst ha; subst hrest
            have h5 := decodeSID_spec h4
            simp [encodeACE, aceTypeByte, Nat.mod_eq_of_lt hfl, ← henc4, ← h5]
        · split at h
          · rename_i ht1
            subst ht1
            split at h
            · exact absurd h (by simp)
            · rename_i sid bs4 h4
              simp only [Option.some.injEq, Prod.mk.injEq] at h
              obtain ⟨ha, hrest⟩ := h
              subst ha; subst hrest
              have h5 := decodeSID_spec h4
              simp [encodeACE, aceTypeByte, Nat.mod_eq_of_lt hfl, ← henc4, ← h5]
          · split at h
            · rename_i ht2
              subst ht2
              split at h
              · exact absurd h (by simp)
              · rename_i g bs4 h4
                split at h
                · exact absurd h (by simp)
                · rename_i sid bs5 h5
                  simp only [Option.some.injEq, Prod.mk.injEq] at h
                  obtain ⟨ha, hrest⟩ := h
                  subst ha; subst hrest
                  obtain ⟨henc16, _⟩ := readLE_spec h4
                  have h6 := decodeSID_spec h5
                  simp [encodeACE, aceTypeByte, Nat.mod_eq_of_lt hfl,
                    ← henc4, ← henc16, ← h6]
            · exact absurd h (by simp)

theorem decodeACEs_spec {n : Nat} {bs : List Nat} {l : List ACE} {rest : List Nat}
    (h : decodeACEs n bs = some (l, rest)) :
    (l.map encodeACE).flatten ++ rest = bs ∧ l.length = n := by
  induction n generalizing bs l rest with
  | zero =>
    simp only [decodeACEs, Option.some.injEq, Prod.mk.injEq] at h
    obtain ⟨hl, hr⟩ := h
    subst hl; subst hr
    simp
  | succ k ih =>
    simp only [decodeACEs] at h
    split at h
    · exact absurd h (by simp)
    · rename_i a bs1 h1
      split at h
      · exact absurd h (by simp)
      · rename_i l1 bs2 h2
        simp only [Option.some.injEq, Prod.mk.injEq] at h
        obtain ⟨hl, hrest⟩ := h
        have henc1 := decodeACE_spec h1
        obtain ⟨henc2, hlen⟩ := ih h2
        subst hl; subst hrest
        refine ⟨?_, by simp [hlen]⟩
        simp only [List.map_cons, List.flatten_cons, List.append_assoc, henc2, henc1]

theorem decodeACL_spec {bs : List Nat} {l : List ACE} {rest : List Nat}
    (h : decodeACL bs = some (l, rest)) : encodeACL l ++ rest = bs := by
  simp only [decodeACL] at h
  split at h
  · exact absurd h (by simp)
  · rename_i cnt bs1 h1
    obtain ⟨henc, hcnt⟩ := readLE_spec h1
    obtain ⟨hflat, hlen⟩ := decodeACEs_spec h
    subst hlen
    simp only [encodeACL, List.append_assoc, hflat, henc]

theorem decodeSD_spec {bs : List Nat} {d : SecurityDescriptor}
    (h : decodeSD bs = some d) : encodeSD d = bs := by
  simp only [decodeSD] at h
  split at h
  · exact absurd h (by simp)
  · rename_i rev bs1 h1
    split at h
    · exact absurd h (by simp)
    · rename_i control bs2 h2
      split at h
      · exact absurd h (by simp)
      · rename_i owner bs3 h3
        split at h
        · exact absurd h (by simp)
        · rename_i group bs4 h4
          split at h
          · exact absurd h (by simp)
          · rename_i dacl bs5 h5
            obtain ⟨hbs, hrev⟩ := readByte_spec h1
            obtain ⟨henc2, _⟩ := readLE_spec h2
            have hown := decodeSID_spec h3
            have hgrp := decodeSID_spec h4
            have hdacl := decodeACL_spec h5
            subst hbs
            split at h
            · split at h
              · exact absurd h (by simp)
              · rename_i sacl bs6 h6
                split at h
                · rename_i hnil
                  subst hnil
                  simp only [Option.some.injEq] at h
                  subst h
                  have hsacl := decodeACL_spec h6
                  simp only [encodeSD, Nat.mod_eq_of_lt hrev]
                  simp [← henc2, ← hown, ← hgrp, ← hdacl, ← hsacl]
                · exact absurd h (by simp)
            · split at h
              · rename_i hnil
                subst hnil
                simp only [Option.some.injEq] at h
                subst h
                simp only [encodeSD, Nat.mod_eq_of_lt hrev]
                simp [← henc2, ← hown, ← hgrp, ← hdacl]
              · exact absurd h (by simp)

/-! ## ACE-editor lemmas -/

theorem aceMatches_newAllowAce (s : SID) (m : Nat) (g : Option Nat) :
    aceMatches s m g (newAllowAce s m g) = true := by
  simp [aceMatches, newAllowAce]

theorem grant_of_any {d : SecurityDescriptor} {s : SID} {m : Nat} {g : Option Nat}
    (h : d.dacl.any (aceMatches s m g) = true) : grant d s m g = d := by
  simp [grant, h]

theorem grant_dacl_any (d : SecurityDescriptor) (s : SID) (m : Nat) (g : Option Nat) :
    (grant d s m g).dacl.any (aceMatches s m g) = true := by
  unfold grant
  split
  · assumption
  · simp [aceMatches_newAllowAce]

theorem removeFirstMatch_spec {p : ACE → Bool} {l : List ACE} (h : l.any p = true) :
    ∃ l1 a l2, l = l1 ++ a :: l2 ∧ p a = true ∧ (∀ x ∈ l1, p x = false) ∧
      removeFirstMatch p l = l1 ++ l2 := by
  induction l with
  | nil => simp at h
  | cons a l ih =>
    by_cases ha : p a = true
    · exact ⟨[], a, l, rfl, ha, by simp, by simp [removeFirstMatch, ha]⟩
    · have ha' : p a = false := by simpa using ha
      have hl : l.any p = true := by simpa [List.any_cons, ha'] using h
      obtain ⟨l1, b, l2, hsplit, hb, hnone, hrm⟩ := ih hl
      refine ⟨a :: l1, b, l2, by simp [hsplit], hb, ?_, ?_⟩
      · intro x hx
        rcases List.mem_cons.1 hx with hxa | hx1
        · subst hxa; exact ha'
        · exact hnone x hx1
      · simp [removeFirstMatch, ha', hrm]

/-! ## Claim theorems -/

/-- Claim C1: for every decoded security descriptor `d`, trustee SID,
right and optional object-type GUID such that `d` already contains an
ACE for the exact tuple, `grant` returns `d` unchanged; and applying
`grant` twice with identical arguments yields a descriptor byte-for-byte
equal to applying it once. -/
theorem grant_idempotent (d : SecurityDescriptor) (s : SID) (m : Nat) (g : Option Nat) :
    (d.dacl.any (aceMatches s m g) = true → grant d s m g = d) ∧
    grant (grant d s m g) s m g = grant d s m g ∧
    encodeSD (grant (grant d s m g) s m g) = encodeSD (grant d s m g) := by
  refine ⟨fun h => grant_of_any h, grant_of_any (grant_dacl_any d s m g), ?_⟩
  rw [grant_of_any (grant_dacl_any d s m g)]

/-- Concrete run of claim C1: `sampleSD` already holds a GENERIC_ALL
allow ACE for `sampleSID`, and `grant` leaves it unchanged. -/
theorem grant_idempotent_witness :
    sampleSD.dacl.any (aceMatches sampleSID GENERIC_ALL none) = true ∧
    grant sampleSD sampleSID GENERIC_ALL none = sampleSD :=
  ⟨by decide, (grant_idempotent sampleSD sampleSID GENERIC_ALL none).1 (by decide)⟩

/-- Claim C2: `revoke` on a descriptor with no exactly matching ACE
returns the descriptor unchanged and signals `NoMatchingGrant`; when an
exactly matching ACE exists, `revoke` removes only that ACE. -/
theorem revoke_exact (d : SecurityDescriptor) (s : SID) (m : Nat) (g : Option Nat) :
    (d.dacl.any (aceMatches s m g) = false →
      revoke d s m g = (d, RevokeSignal.noMatchingGrant)) ∧
    (d.dacl.any (aceMatches s m g) = true →
      ∃ l1 a l2, d.dacl = l1 ++ a :: l2 ∧ aceMatches s m g a = true ∧
        (∀ x ∈ l1, aceMatches s m g x = false) ∧
        revoke d s m g = ({ d with dacl := l1 ++ l2 }, RevokeSignal.removed)) := by
  constructor
  · intro h
    simp [revoke, h]
  · intro h
    obtain ⟨l1, a, l2, hsplit, hb, hnone, hrm⟩ := removeFirstMatch_spec h
    exact ⟨l1, a, l2, hsplit, hb, hnone, by simp [revoke, h, hrm]⟩

/-- Concrete run of claim C2: no ACE of `sampleSD` matches
`sampleOtherSID`, so `revoke` is a signalled no-op. -/
theorem revoke_exact_witness :
    sampleSD.dacl.any (aceMatches sampleOtherSID GENERIC_ALL none) = false ∧
    revoke sampleSD sampleOtherSID GENERIC_ALL none
      = (sampleSD, RevokeSignal.noMatchingGrant) :=
  ⟨by decide, (revoke_exact sampleSD sampleOtherSID GENERIC_ALL none).1 (by decide)⟩

/-- Claim C3: for every byte string on which `decodeSD` succeeds,
re-encoding the decoded structure reproduces the bytes exactly; in
particular re-encoding after a no-op edit (a `grant` that already holds,
or a `revoke` that matches nothing) reproduces the original encoding. -/
theorem encode_decode_roundtrip (bs : List Nat) (d : SecurityDescriptor)
    (h : decodeSD bs = some d) :
    encodeSD d = bs ∧
    (∀ s m g, d.dacl.any (aceMatches s m g) = true →
      encodeSD (grant d s m g) = bs) ∧
    (∀ s m g, d.dacl.any (aceMatches s m g) = false →
      encodeSD (revoke d s m g).1 = bs) := by
  refine ⟨decodeSD_spec h, ?_, ?_⟩
  · intro s m g hmatch
    rw [grant_of_any hmatch]
    exact decodeSD_spec h
  · intro s m g hnone
    simp only [revoke, hnone, Bool.false_eq_true, if_false]
    exact decodeSD_spec h

/-- Concrete run of claim C3: `sampleBytes` decodes to `sampleSD` and
re-encodes to the identical byte string. -/
theorem encode_decode_roundtrip_witness :
    decodeSD sampleBytes = some sampleSD ∧ encodeSD sampleSD = sampleBytes :=
  ⟨by decide, (encode_decode_roundtrip sampleBytes sampleSD (by decide)).1⟩

/-- Claim C4: `setOwner` always succeeds on a decoded descriptor,
replaces only the owner field, and returns the owner present in the
descriptor immediately before the call — not a historical original —
and the exposed operation hands that previous owner to the caller. -/
theorem setOwner_previous (d : SecurityDescriptor) (s s2 : SID)
    (attrs : String → List Nat)
    (h : decodeSD (attrs "nTSecurityDescriptor") = some d) :
    (setOwnerSD d s).1.owner = s ∧
    (setOwnerSD d s).1.revision = d.revision ∧
    (setOwnerSD d s).1.control = d.control ∧
    (setOwnerSD d s).1.group = d.group ∧
    (setOwnerSD d s).1.dacl = d.dacl ∧
    (setOwnerSD d s).1.sacl = d.sacl ∧
    (setOwnerSD d s).2 = d.owner ∧
    (setOwnerSD (setOwnerSD d s).1 s2).2 = s ∧
    (∃ attrs2, setOwner attrs s = some ((setOwnerSD d s).1, attrs2, some d.owner) ∧
      attrs2 "nTSecurityDescriptor" = encodeSD (setOwnerSD d s).1 ∧
      ∀ a, a ≠ "nTSecurityDescriptor" → attrs2 a = attrs a) := by
  refine ⟨rfl, rfl, rfl, rfl, rfl, rfl, rfl, rfl, ?_⟩
  refine ⟨fun a => if a = "nTSecurityDescriptor" then encodeSD (setOwnerSD d s).1
    else attrs a, ?_, by simp, ?_⟩
  · simp [setOwner, modifySecDesc, h, applyEdit, setOwnerSD]
  · intro a ha
    simp [ha]

/-- Concrete run of claim C4: replacing `sampleSD`'s owner reports
`sampleOwner`, the owner present immediately before the call. -/
theorem setOwner_previous_witness :
    decodeSD (sampleAttrs "nTSecurityDescriptor") = some sampleSD ∧
    (setOwnerSD sampleSD sampleSID).2 = sampleOwner :=
  ⟨by decide,
   (setOwner_previous sampleSD sampleSID sampleOtherSID sampleAttrs
     (by decide)).2.2.2.2.2.2.1⟩

/-- Claim C5: shadow-credential removal deletes only the single
KeyCredential entry whose GUID matches the one generated at enrollment,
leaving every co-existing entry undisturbed. -/
theorem unenroll_single (l1 l2 : List KeyCredential) (e : KeyCredential) (g : Nat)
    (he : e.deviceId = g) (hl1 : ∀ x ∈ l1, x.deviceId ≠ g) :
    unenroll (l1 ++ e :: l2) g = l1 ++ l2 := by
  induction l1 with
  | nil =>
    simp [unenroll, he]
  | cons a l ih =>
    have ha : ¬ a.deviceId = g := hl1 a (by simp)
    simp only [List.cons_append, unenroll, if_neg ha]
    exact congrArg (a :: ·) (ih fun x hx => hl1 x (List.mem_cons_of_mem _ hx))

/-- Concrete run of claim C5: amid three entries, only the one with
GUID 2 is removed. -/
theorem unenroll_single_witness :
    (⟨2, [7]⟩ : KeyCredential).deviceId = 2 ∧
    (∀ x ∈ [(⟨1, []⟩ : KeyCredential)], x.deviceId ≠ 2) ∧
    unenroll [⟨1, []⟩, ⟨2, [7]⟩, ⟨3, []⟩] 2 = [⟨1, []⟩, ⟨3, []⟩] :=
  ⟨rfl, by decide, unenroll_single [⟨1, []⟩] [⟨3, []⟩] ⟨2, [7]⟩ 2 rfl (by decide)⟩

/-! ## Canonical-order lemmas -/

theorem isInherited_of_two_le_aceRank {x : ACE} (h : 2 ≤ aceRank x) :
    x.isInherited = true := by
  by_cases hx : x.isInherited = true
  · exact hx
  · have hx' : x.isInherited = false := by simpa using hx
    rw [aceRank, hx'] at h
    simp only [Bool.false_eq_true, if_false] at h
    split at h <;> omega

theorem aceRank_le_one_of_not_inherited {x : ACE} (h : x.isInherited = false) :
    aceRank x ≤ 1 := by
  rw [aceRank, h]
  simp only [Bool.false_eq_true, if_false]
  split <;> omega

theorem aceRank_newAllowAce (s : SID) (m : Nat) (g : Option Nat) :
    aceRank (newAllowAce s m g) = 1 := by
  have hinh : (newAllowAce s m g).isInherited = false := by
    simp [newAllowAce, ACE.isInherited]
  rw [aceRank, hinh]
  cases g <;> simp [newAllowAce, allowTypeFor]

theorem mem_dropWhile_inherited {l : List ACE} (h : canonicalOrder l) :
    ∀ x ∈ l.dropWhile (fun a => !a.isInherited), x.isInherited = true := by
  induction l with
  | nil => simp
  | cons a l ih =>
    rw [canonicalOrder, List.pairwise_cons] at h
    obtain ⟨hab, hl⟩ := h
    by_cases hai : a.isInherited = true
    · intro x hx
      rw [List.dropWhile_cons] at hx
      simp only [hai, Bool.not_true, Bool.false_eq_true, if_false] at hx
      rcases List.mem_cons.1 hx with hxa | hx1
      · subst hxa; exact hai
      · have hrank : 2 ≤ aceRank x := by
          have h2 : aceRank a = 2 := by rw [aceRank, hai]; simp
          have := hab x hx1
          omega
        exact isInherited_of_two_le_aceRank hrank
    · intro x hx
      rw [List.dropWhile_cons] at hx
      have hai' : a.isInherited = false := by simpa using hai
      simp only [hai', Bool.not_false, if_true] at hx
      exact ih hl x hx

theorem grant_canonical_insert {l : List ACE} (h : canonicalOrder l)
    (s : SID) (m : Nat) (g : Option Nat) :
    canonicalOrder (l.takeWhile (fun a => !a.isInherited) ++
      newAllowAce s m g :: l.dropWhile (fun a => !a.isInherited)) := by
  rw [canonicalOrder, List.pairwise_append]
  refine ⟨h.sublist (List.takeWhile_sublist _), ?_, ?_⟩
  · rw [List.pairwise_cons]
    constructor
    · intro b hb
      rw [aceRank_newAllowAce]
      have hbin := mem_dropWhile_inherited h b hb
      rw [aceRank, hbin]
      simp
    · exact h.sublist (List.dropWhile_sublist _)
  · intro x hx b hb
    have hxi : x.isInherited = false := by
      have := List.mem_takeWhile_imp hx
      simpa using this
    have hx1 : aceRank x ≤ 1 := aceRank_le_one_of_not_inherited hxi
    rcases List.mem_cons.1 hb with hbn | hb1
    · rw [hbn, aceRank_newAllowAce]
      exact hx1
    · have hbin := mem_dropWhile_inherited h b hb1
      have : aceRank b = 2 := by rw [aceRank, hbin]; simp
      omega

theorem denyPrecedesAllow_of_canonical {l : List ACE} (h : canonicalOrder l) :
    denyPrecedesAllow l := by
  refine h.imp ?_
  intro a b hr
  rintro ⟨hallow, hdeny⟩
  rw [ACE.isExplicitAllow, Bool.and_eq_true] at hallow
  rw [ACE.isExplicitDeny, Bool.and_eq_true] at hdeny
  have hai : a.isInherited = false := by
    have := hallow.1; simpa using this
  have had : ¬ a.aceType = AceType.deny := by
    have := hallow.2; simpa using this
  have hbi : b.isInherited = false := by
    have := hdeny.1; simpa using this
  have hbd : b.aceType = AceType.deny := by
    have := hdeny.2; simpa using this
  have hra : aceRank a = 1 := by rw [aceRank, hai]; simp [had]
  have hrb : aceRank b = 0 := by rw [aceRank, hbi]; simp [hbd]
  omega

/-- Claim C6: on a canonically ordered DACL, `grant` inserts the new
allow ACE after the existing explicit entries and before any inherited
entries, and after every `grant` all explicit-deny ACEs still precede
all explicit-allow ACEs. -/
theorem grant_preserves_canonical (d : SecurityDescriptor) (s : SID) (m : Nat)
    (g : Option Nat) (h : canonicalOrder d.dacl) :
    canonicalOrder (grant d s m g).dacl ∧
    denyPrecedesAllow (grant d s m g).dacl ∧
    (d.dacl.any (aceMatches s m g) = false →
      (grant d s m g).dacl =
        d.dacl.takeWhile (fun a => !a.isInherited) ++
          newAllowAce s m g :: d.dacl.dropWhile (fun a => !a.isInherited) ∧
      (∀ x ∈ d.dacl.takeWhile (fun a => !a.isInherited), x.isInherited = false) ∧
      (∀ x ∈ d.dacl.dropWhile (fun a => !a.isInherited), x.isInherited = true)) := by
  have hc : canonicalOrder (grant d s m g).dacl := by
    unfold grant
    split
    · exact h
    · exact grant_canonical_insert h s m g
  refine ⟨hc, denyPrecedesAllow_of_canonical hc, fun hnone => ⟨?_, ?_, ?_⟩⟩
  · simp [grant, hnone]
  · intro x hx
    have := List.mem_takeWhile_imp hx
    simpa using this
  · exact mem_dropWhile_inherited h

/-- Concrete run of claim C6: `sampleSD`'s one-entry DACL is canonical,
and after granting to a new SID denies still precede allows. -/
theorem grant_preserves_canonical_witness :
    canonicalOrder sampleSD.dacl ∧
    denyPrecedesAllow (grant sampleSD sampleOtherSID GENERIC_ALL none).dacl :=
  ⟨by unfold canonicalOrder; decide,
   (grant_preserves_canonical sampleSD sampleOtherSID GENERIC_ALL none
     (by unfold canonicalOrder; decide)).2.1⟩

/-- Claim C7: `setRbcd` applies the same structurally identical DACL
edit that `setGenericAll` applies, but rooted at the delegation
attribute `msDS-AllowedToActOnBehalfOfOtherIdentity` instead of the
target's `nTSecurityDescriptor`; the write lands on that attribute and
every other attribute is untouched. -/
theorem setRbcd_attribute (attrs : String → List Nat) (spn : SID) (enable : String)
    (d : SecurityDescriptor) (h : decodeSD (attrs rbcdAttribute) = some d) :
    rbcdAttribute = "msDS-AllowedToActOnBehalfOfOtherIdentity" ∧
    setRbcd attrs spn enable
      = modifySecDesc attrs rbcdAttribute (.daclEdit spn GENERIC_ALL none enable) ∧
    (∀ attrsG t, setGenericAll attrsG t enable
      = modifySecDesc attrsG "nTSecurityDescriptor"
          (.daclEdit t GENERIC_ALL none enable)) ∧
    (∃ attrs2,
      setRbcd attrs spn enable = some
        ((if enable = "True" then grant d spn GENERIC_ALL none
          else (revoke d spn GENERIC_ALL none).1), attrs2, none) ∧
      attrs2 rbcdAttribute
        = encodeSD (if enable = "True" then grant d spn GENERIC_ALL none
            else (revoke d spn GENERIC_ALL none).1) ∧
      (∀ a, a ≠ rbcdAttribute → attrs2 a = attrs a)) := by
  refine ⟨rfl, rfl, fun _ _ => rfl, ?_⟩
  refine ⟨fun a => if a = rbcdAttribute
    then encodeSD (if enable = "True" then grant d spn GENERIC_ALL none
      else (revoke d spn GENERIC_ALL none).1)
    else attrs a, ?_, by simp, ?_⟩
  · simp [setRbcd, modifySecDesc, h, applyEdit]
  · intro a ha
    simp [ha]

/-- Concrete run of claim C7: with every attribute holding
`sampleBytes`, `setRbcd` decodes the delegation attribute and the
attribute name is the RBCD one. -/
theorem setRbcd_attribute_witness :
    decodeSD (sampleAttrs rbcdAttribute) = some sampleSD ∧
    rbcdAttribute = "msDS-AllowedToActOnBehalfOfOtherIdentity" :=
  ⟨by decide,
   (setRbcd_attribute sampleAttrs sampleSID "True" sampleSD (by decide)).1⟩

/-- Claim C8: a single-ACE edit (`grant` or `revoke`) leaves the owner,
the group, the control flags, the revision, the SACL and the byte
representation of every other ACE identical: the DACL differs from the
original only by the inserted or removed entry, all remaining entries
unchanged and in order. -/
theorem edit_frame (d : SecurityDescriptor) (s : SID) (m : Nat) (g : Option Nat) :
    ((grant d s m g).revision = d.revision ∧ (grant d s m g).control = d.control ∧
     (grant d s m g).owner = d.owner ∧ (grant d s m g).group = d.group ∧
     (grant d s m g).sacl = d.sacl) ∧
    (∃ l1 l2, d.dacl = l1 ++ l2 ∧
      ((grant d s m g).dacl = l1 ++ l2 ∨
       (grant d s m g).dacl = l1 ++ newAllowAce s m g :: l2)) ∧
    ((revoke d s m g).1.revision = d.revision ∧
     (revoke d s m g).1.control = d.control ∧
     (revoke d s m g).1.owner = d.owner ∧ (revoke d s m g).1.group = d.group ∧
     (revoke d s m g).1.sacl = d.sacl) ∧
    ((revoke d s m g).1.dacl = d.dacl ∨
      ∃ l1 a l2, d.dacl = l1 ++ a :: l2 ∧ (revoke d s m g).1.dacl = l1 ++ l2) := by
  refine ⟨?_, ?_, ?_, ?_⟩
  · unfold grant; split <;> exact ⟨rfl, rfl, rfl, rfl, rfl⟩
  · by_cases hm : d.dacl.any (aceMatches s m g) = true
    · exact ⟨d.dacl, [], by simp, Or.inl (by rw [grant_of_any hm]; simp)⟩
    · have hm' : d.dacl.any (aceMatches s m g) = false := by simpa using hm
      refine ⟨d.dacl.takeWhile (fun a => !a.isInherited),
        d.dacl.dropWhile (fun a => !a.isInherited),
        (List.takeWhile_append_dropWhile _ _).symm, Or.inr ?_⟩
      simp [grant, hm']
  · unfold revoke; split <;> exact ⟨rfl, rfl, rfl, rfl, rfl⟩
  · by_cases hm : d.dacl.any (aceMatches s m g) = true
    · obtain ⟨l1, a, l2, hsplit, _, _, hrm⟩ := removeFirstMatch_spec hm
      exact Or.inr ⟨l1, a, l2, hsplit, by simp [revoke, hm, hrm]⟩
    · have hm' : d.dacl.any (aceMatches s m g) = false := by simpa using hm
      exact Or.inl (by simp [revoke, hm'])

/-- Claim C9: any enable string other than exactly `"True"` — including
`"true"`, `"TRUE"`, `"1"` and `""` — sends `setShadowCredentials`,
`setGenericAll`, `setRbcd`, `setDCSync` and `setUserAccountControl`
down the disable/removal path, because each compares the string to
`"True"` by exact equality. -/
theorem enable_exact_string_dispatch (e : String) (h : e ≠ "True") :
    setShadowCredentials e = ShadowCredAction.delShadowCredentials ∧
    (∀ d s m g, applyEdit (.daclEdit s m g e) d = ((revoke d s m g).1, none)) ∧
    (∀ attrs t d, decodeSD (attrs "nTSecurityDescriptor") = some d →
      ∃ attrs2, setGenericAll attrs t e
        = some ((revoke d t GENERIC_ALL none).1, attrs2, none)) ∧
    (∀ attrs t d, decodeSD (attrs rbcdAttribute) = some d →
      ∃ attrs2, setRbcd attrs t e
        = some ((revoke d t GENERIC_ALL none).1, attrs2, none)) ∧
    (∀ attrs t d, decodeSD (attrs "nTSecurityDescriptor") = some d →
      ∃ attrs2, setDCSync attrs t e
        = some ((revoke d t CONTROL_ACCESS (some DCSYNC_GUID)).1, attrs2, none)) ∧
    (∀ u f r, (setUserAccountControl u f e r).1 = Int.land u (Int.lnot f)) := by
  refine ⟨by simp [setShadowCredentials, h],
    fun d s m g => by simp [applyEdit, h], ?_, ?_, ?_,
    fun u f r => by simp [setUserAccountControl, h]⟩
  · intro attrs t d hd
    refine ⟨fun a => if a = "nTSecurityDescriptor"
      then encodeSD (revoke d t GENERIC_ALL none).1 else attrs a, ?_⟩
    simp [setGenericAll, modifySecDesc, hd, applyEdit, h]
  · intro attrs t d hd
    refine ⟨fun a => if a = rbcdAttribute
      then encodeSD (revoke d t GENERIC_ALL none).1 else attrs a, ?_⟩
    simp [setRbcd, modifySecDesc, hd, applyEdit, h]
  · intro attrs t d hd
    refine ⟨fun a => if a = "nTSecurityDescriptor"
      then encodeSD (revoke d t CONTROL_ACCESS (some DCSYNC_GUID)).1
      else attrs a, ?_⟩
    simp [setDCSync, modifySecDesc, hd, applyEdit, h]

/-- Concrete runs of claim C9: `"true"`, `"TRUE"`, `"1"` and `""` all
take the disable path. -/
theorem enable_exact_string_dispatch_witness :
    ("true" ≠ "True") ∧
    setShadowCredentials "true" = ShadowCredAction.delShadowCredentials ∧
    setShadowCredentials "TRUE" = ShadowCredAction.delShadowCredentials ∧
    setShadowCredentials "1" = ShadowCredAction.delShadowCredentials ∧
    setShadowCredentials "" = ShadowCredAction.delShadowCredentials ∧
    (setUserAccountControl 544 4194304 "true" 0).1
      = Int.land 544 (Int.lnot 4194304) :=
  ⟨by decide,
   (enable_exact_string_dispatch "true" (by decide)).1,
   (enable_exact_string_dispatch "TRUE" (by decide)).1,
   (enable_exact_string_dispatch "1" (by decide)).1,
   (enable_exact_string_dispatch "" (by decide)).1,
   (enable_exact_string_dispatch "true" (by decide)).2.2.2.2.2 544 4194304 0⟩

/-- Claim C10: on a fetched 32-bit value `u` and mask `f`,
`setUserAccountControl` writes back `u ||| f` when the enable string is
exactly `"True"` and `u &&& ~f` (bitwise difference) otherwise — both
still 32-bit — and it raises `ResultError` if and only if the
directory's reported result code for the modify is non-zero. -/
theorem setUserAccountControl_flags (u f : Nat) (e : String) (r : Nat)
    (hu : u < 2 ^ 32) (hf : f < 2 ^ 32) :
    ((setUserAccountControl (u : Int) (f : Int) e r).1
      = if e = "True" then ((u ||| f : Nat) : Int)
        else ((Nat.ldiff u f : Nat) : Int)) ∧
    (u ||| f) < 2 ^ 32 ∧ Nat.ldiff u f < 2 ^ 32 ∧
    ((setUserAccountControl (u : Int) (f : Int) e r).2 = Except.error r ↔ r ≠ 0) ∧
    ((setUserAccountControl (u : Int) (f : Int) e r).2 = Except.ok () ↔ r = 0) := by
  refine ⟨?_, Nat.bitwise_lt_two_pow hu hf, Nat.bitwise_lt_two_pow hu hf, ?_, ?_⟩
  · by_cases he : e = "True" <;>
      simp only [setUserAccountControl, he, if_true, if_false,
        Bool.false_eq_true] <;> rfl
  · by_cases hr : r = 0 <;> simp [setUserAccountControl, hr]
  · by_cases hr : r = 0 <;> simp [setUserAccountControl, hr]

/-- Concrete run of claim C10: disabling flag `0x400000` on value `544`
with a non-zero directory result code raises `ResultError`. -/
theorem setUserAccountControl_flags_witness :
    (544 : Nat) < 2 ^ 32 ∧ (4194304 : Nat) < 2 ^ 32 ∧
    (setUserAccountControl ((544 : Nat) : Int) ((4194304 : Nat) : Int) "False" 3).2
      = Except.error 3 :=
  ⟨by decide, by decide,
   (setUserAccountControl_flags 544 4194304 "False" 3
     (by decide) (by decide)).2.2.2.1.mpr (by decide)⟩

end BloodyAD
